import Mathlib

/-!
Pomodouroboros mac GUI driver — verification development.

Shallow embedding of `src/pomodouroboros/mac_gui.py` (the driver layer:
`MacPomObserver`, `BigProgressView.drawRect_`, `expressIntention`,
`setIntention`, `thisAndPreviousPoms`, `DayManager.start`/`setSuccess`)
together with a model of the core `pommodel` entities (`Day`, `Pomodoro`,
`Break`, `IntentionResponse`) and operations (`expressIntention`,
`evaluateIntention`, `advanceToTime`, query helpers), which are imported by
the driver but whose source is not part of this tree; those are modelled
from the specification and marked as such.

Python floats are modelled as rationals (`ℚ`); calendar timestamps as
rational seconds, with the calendar date obtained by flooring at a day's
worth of seconds.  Exceptions are modelled with `Except`; external
collaborators that can fail (the day loader, the status-item setter, the
modal dialog) are passed in as `Except`-valued parameters.  Side effects
(notifications, day persistence, traceback printing, calls into
`Day.advanceToTime`) are reified as an `Eff` trace.
-/

namespace Pomodouroboros

/-- A user's declared goal for one focus interval and its eventual
success verdict.  `wasSuccessful` is tri-state: unset, `true`, `false`. -/
structure Intention where
  description : String
  wasSuccessful : Option Bool
deriving DecidableEq

/-- A focus interval with an optional owned `Intention`. -/
structure Pomodoro where
  startTime : ℚ
  endTime : ℚ
  intention : Option Intention
deriving DecidableEq

/-- A rest interval; no intention applies. -/
structure Break where
  startTime : ℚ
  endTime : ℚ
deriving DecidableEq

/-- The two-variant interval sum type. -/
inductive Interval where
  | pom (p : Pomodoro)
  | brk (b : Break)
deriving DecidableEq

def Interval.startTime : Interval → ℚ
  | .pom p => p.startTime
  | .brk b => b.startTime

def Interval.endTime : Interval → ℚ
  | .pom p => p.endTime
  | .brk b => b.endTime

/-- Project out a Pomodoro, as `isinstance(each, Pomodoro)` filtering does. -/
def pomOf : Interval → Option Pomodoro
  | .pom p => some p
  | .brk _ => none

/-- The classification returned when code attempts to set or evaluate an
intention. -/
inductive IntentionResponse where
  | CanBeSet
  | AlreadySet
  | OnBreak
  | TooLate
  | WasSet
deriving DecidableEq

/-- The day scheduler state.  `startedMarker` and `dayOverFired` are the
per-Day markers the specification requires so that start events and
`dayOver` fire exactly once per transition. -/
structure Day where
  startTime : ℚ
  pendingIntervals : List Interval
  elapsedIntervals : List Interval
  startedMarker : Option ℚ
  dayOverFired : Bool
deriving DecidableEq

/-- Calendar date of a timestamp (in seconds), as an ordinal day number
(the floor of `t / 86400`, computed by floor division on the numerator):
models Python's `.date()` on a timestamp. -/
def dateOf (t : ℚ) : ℤ := Int.fdiv t.num (t.den * 86400)

/-- Observer lifecycle events emitted by `Day.advanceToTime`: the five
callbacks of the Observer contract, deep-embedded as data. -/
inductive ObsEvent where
  | breakStarting (b : Break)
  | pomodoroStarting (day : Day) (p : Pomodoro)
  | elapsedWithNoIntention (p : Pomodoro)
  | progressUpdate (interval : Interval) (percentageElapsed : ℚ)
      (response : IntentionResponse)
  | dayOver
deriving DecidableEq

/-- Reified driver side effects: OS notifications, the deferred
ask-for-intent registration, persistence, prints, the status item title,
calls into `Day.advanceToTime`, calls into `Day.evaluateIntention`, and an
uncaught propagating exception. -/
inductive Eff where
  | notif (title subtitle informativeText : String)
  | askIntent (day : Day)
  | saveDayE (day : Day)
  | advance (day : Day) (t : ℚ)
  | printE (s : String)
  | setTitle (s : String)
  | evaluated (p : Pomodoro) (succeeded : Bool)
  | raiseE (msg : String)
deriving DecidableEq

def Eff.isNotif : Eff → Bool
  | .notif _ _ _ => true
  | _ => false

def Eff.isSaveDay : Eff → Bool
  | .saveDayE _ => true
  | _ => false

def Eff.isAdvance : Eff → Bool
  | .advance _ _ => true
  | _ => false

def Eff.isRaise : Eff → Bool
  | .raiseE _ => true
  | _ => false

def Eff.isEvaluated : Eff → Bool
  | .evaluated _ _ => true
  | _ => false

def clamp (x lo hi : ℚ) : ℚ := max lo (min hi x)

/-- Modelled from the spec: the §4.1 IntentionResponse classification used
for progress display, a pure function of the pending plan and `now`.  The
acceptance window for `CanBeSet` is the whole interval before it elapses
("before it elapses"), the spec's stated default. -/
def intentionResponseFor (pending : List Interval) (now : ℚ) : IntentionResponse :=
  match pending with
  | [] => .TooLate
  | .brk _ :: _ => .OnBreak
  | .pom p :: _ =>
    match p.intention with
    | some _ => .AlreadySet
    | none => if now < p.endTime then .CanBeSet else .TooLate

/-- Modelled from the spec: `Day.expressIntention(now, text)` (§4.2).
Inspects `pendingIntervals[0]`; attaches a fresh Intention and returns
`WasSet` only for a current Pomodoro with no intention whose acceptance
window has not passed.  The empty-plan day-over edge case is treated as the
"too late" subtype (§7). -/
def Day.expressIntention (d : Day) (now : ℚ) (text : String) :
    IntentionResponse × Day :=
  match d.pendingIntervals with
  | [] => (.TooLate, d)
  | .brk _ :: _ => (.OnBreak, d)
  | .pom p :: rest =>
    match p.intention with
    | some _ => (.AlreadySet, d)
    | none =>
      if now < p.endTime then
        (.WasSet,
         { d with pendingIntervals :=
            Interval.pom { p with intention := some ⟨text, none⟩ } :: rest })
      else (.TooLate, d)

/-- Modelled from the spec: `evaluateIntention(pomodoro, succeeded)` (§4.3).
Signals an error if the Pomodoro has no Intention or its verdict is already
set (terminal state); otherwise sets `wasSuccessful := succeeded`. -/
def Pomodoro.evaluateIntention (p : Pomodoro) (succeeded : Bool) :
    Except String Pomodoro :=
  match p.intention with
  | none => .error "evaluateIntention: pomodoro has no intention"
  | some i =>
    match i.wasSuccessful with
    | some _ => .error "evaluateIntention: intention already judged"
    | none => .ok { p with intention := some { i with wasSuccessful := some succeeded } }

/-- Modelled from the spec: step 1 of `advanceToTime` (§4.5): while the
head of the pending list has `endTime ≤ now`, pop it (emitting
`elapsedWithNoIntention` for an intention-less Pomodoro) and append it to
the elapsed list. -/
def drainElapsed (pending elapsed : List Interval) (now : ℚ) :
    List Interval × List Interval × List ObsEvent :=
  match pending with
  | [] => ([], elapsed, [])
  | i :: rest =>
    if i.endTime ≤ now then
      let headEvs : List ObsEvent :=
        match i with
        | .pom p => if p.intention = none then [.elapsedWithNoIntention p] else []
        | .brk _ => []
      let r := drainElapsed rest (elapsed ++ [i]) now
      (r.1, r.2.1, headEvs ++ r.2.2)
    else (pending, elapsed, [])

/-- The start event for the current interval: `breakStarting` for a Break,
`pomodoroStarting(day, pomodoro)` for a Pomodoro. -/
def startEventFor (d : Day) : Interval → ObsEvent
  | .brk b => .breakStarting b
  | .pom p => .pomodoroStarting d p

/-- Steps 4–5 of `advanceToTime` (§4.5): one `progressUpdate` when `now`
lies within the current interval's window, nothing during a gap. -/
def progressEvents (pending : List Interval) (cur : Interval) (now : ℚ) :
    List ObsEvent :=
  if cur.startTime ≤ now ∧ now < cur.endTime then
    [.progressUpdate cur
      (clamp ((now - cur.startTime) / (cur.endTime - cur.startTime)) 0 1)
      (intentionResponseFor pending now)]
  else []

/-- Modelled from the spec: `Day.advanceToTime(now, observer)` (§4.5).
The observer is deep-embedded: the function returns the mutated day and
the ordered list of observer events fired during the call. -/
def Day.advanceToTime (d : Day) (now : ℚ) : Day × List ObsEvent :=
  let r := drainElapsed d.pendingIntervals d.elapsedIntervals now
  match r.1 with
  | [] =>
    if d.dayOverFired then
      ({ d with pendingIntervals := [], elapsedIntervals := r.2.1 }, r.2.2)
    else
      let d1 : Day :=
        { d with pendingIntervals := [], elapsedIntervals := r.2.1, dayOverFired := true }
      (d1, r.2.2 ++ [.dayOver])
  | cur :: restPending =>
    let d1 : Day :=
      { d with pendingIntervals := cur :: restPending, elapsedIntervals := r.2.1 }
    if cur.startTime ≤ now ∧ ¬ d.startedMarker = some cur.startTime then
      let d2 : Day := { d1 with startedMarker := some cur.startTime }
      (d2, r.2.2 ++ [startEventFor d2 cur]
            ++ progressEvents (cur :: restPending) cur now)
    else
      (d1, r.2.2 ++ progressEvents (cur :: restPending) cur now)

/-- Modelled from the spec: the §6 query helpers, filtered order-preserving
views over the interval lists.  `successful`/`failed` select judged
Pomodoros, `unEvaluated` the elapsed Pomodoros with an intention whose
verdict is unset, `pending` the Pomodoros of the pending plan. -/
def Day.successfulPomodoros (d : Day) : List Pomodoro :=
  ((d.elapsedIntervals ++ d.pendingIntervals).filterMap pomOf).filter
    (fun p => decide ((p.intention.map Intention.wasSuccessful) = some (some true)))

/-- Modelled from the spec: see `Day.successfulPomodoros`. -/
def Day.failedPomodoros (d : Day) : List Pomodoro :=
  ((d.elapsedIntervals ++ d.pendingIntervals).filterMap pomOf).filter
    (fun p => decide ((p.intention.map Intention.wasSuccessful) = some (some false)))

/-- Modelled from the spec: see `Day.successfulPomodoros`. -/
def Day.unEvaluatedPomodoros (d : Day) : List Pomodoro :=
  (d.elapsedIntervals.filterMap pomOf).filter
    (fun p => decide ((p.intention.map Intention.wasSuccessful) = some none))

/-- Modelled from the spec: see `Day.successfulPomodoros`. -/
def Day.pendingPomodoros (d : Day) : List Pomodoro :=
  d.pendingIntervals.filterMap pomOf

def can : String := "🥫"

def tomato : String := "🍅"

/-- `labelForDay` from `mac_gui.py`: the menu-bar label summarising the
day's success proportion. -/
def labelForDay (day : Day) : String :=
  let success := day.successfulPomodoros.length
  let failed := day.failedPomodoros.length
  let mystery := day.unEvaluatedPomodoros.length
  let unfinished := day.pendingPomodoros.length
  let icon := if success > failed then tomato else can
  icon ++ ": " ++ toString success ++ "✓ " ++ toString failed ++ "✗ "
    ++ (if mystery ≠ 0 then toString mystery ++ "? " else "")
    ++ toString unfinished ++ "…"

/-- The `NSColor` values used by the driver. -/
inductive Color where
  | green
  | red
  | yellow
  | purple
  | blue
  | lightGray
  | darkGray
  | orange
deriving DecidableEq

/-- The mutable state of `BigProgressView`: stored percentage and the two
bar colors. -/
structure ViewState where
  percentage : ℚ
  leftColor : Color
  rightColor : Color
deriving DecidableEq

/-- The mutable state of the HUD window the observer manipulates. -/
structure WindowState where
  visible : Bool
  alpha : ℚ
deriving DecidableEq

/-- The mutable state of `MacPomObserver` together with the view and
window it drives. -/
structure MacState where
  view : ViewState
  window : WindowState
  lastThreshold : ℚ
  active : Bool
deriving DecidableEq

/-- A rectangle as passed to `fillRect`: origin and size. -/
structure Rect where
  x : ℚ
  y : ℚ
  w : ℚ
  h : ℚ
deriving DecidableEq

/-- `BigProgressView.drawRect_`: splits the view's bounds of size
`w × h` at `percentage * w` into the left (green/left-color) and right
(red/right-color) filled rectangles. -/
def drawRect (v : ViewState) (w h : ℚ) : Rect × Rect :=
  let split := v.percentage * w
  (⟨0, 0, split, h⟩, ⟨split, 0, w - split, h⟩)

/-- `MacPomObserver.thresholds`: reminder percentages and messages. -/
def thresholds : List (ℚ × String) :=
  [(1/4, "Time to get started!"),
   (1/2, "Halfway there."),
   (3/4, "Time to finish up."),
   (19/20, "Almost done!")]

/-- The threshold scan of `MacPomObserver.progressUpdate`: for each
`(pct, message)` with `lastThreshold ≤ pct < percentageElapsed`, set
`lastThreshold := percentageElapsed` and post a "Remember Your Intention"
notification, then keep scanning.  Returns the final `lastThreshold` and
the posted notifications. -/
def runThresholds (last p : ℚ) (ths : List (ℚ × String)) (desc : String) :
    ℚ × List Eff :=
  match ths with
  | [] => (last, [])
  | (pct, message) :: rest =>
    if last ≤ pct ∧ p > pct then
      let r := runThresholds p p rest desc
      (r.1, Eff.notif "Remember Your Intention" message ("“" ++ desc ++ "”") :: r.2)
    else runThresholds last p rest desc

/-- `MacPomObserver.breakStarting`. -/
def macBreakStarting (m : MacState) (_b : Break) : MacState × List Eff :=
  ({ m with active := true, window := { m.window with visible := true } },
   [.printE "break start", .notif "Starting Break" "Take it easy for a while." ""])

/-- `MacPomObserver.pomodoroStarting`: resets `lastThreshold` to 0 and
registers the ask-for-intent notification whose handler closes over the
day and will run the driver-level `expressIntention`. -/
def macPomodoroStarting (m : MacState) (day : Day) (_p : Pomodoro) :
    MacState × List Eff :=
  let m' : MacState :=
    { m with active := true, lastThreshold := 0, window := { m.window with visible := true } }
  (m', [.printE "pom start", .askIntent day])

/-- `MacPomObserver.elapsedWithNoIntention`. -/
def macElapsedWithNoIntention (m : MacState) (_p : Pomodoro) :
    MacState × List Eff :=
  (m, [.notif "Pomodoro Failed" "" "The pomodoro elapsed with no intention specified."])

/-- `MacPomObserver.progressUpdate`.  `sinF` abstracts `math.sin` and
`rawSec` the `time.time()` sample used for the alpha pulse; both are pure
parameters of the embedding.  The two `if` statements of the Python body
(an `if` on `CanBeSet`, then an `if`/`elif` chain on
`AlreadySet`/`OnBreak`/`TooLate`) are rendered as one exhaustive match. -/
def macProgressUpdate (sinF : ℚ → ℚ) (rawSec : ℚ) (m : MacState)
    (interval : Interval) (percentageElapsed : ℚ)
    (canSetIntention : IntentionResponse) : MacState × List Eff :=
  let baseAlphaValue : ℚ := 15/100
  let alphaVariance : ℚ := 15/1000
  let pulseMultiplier : ℚ := 3/2
  let r : ViewState × ℚ × ℚ × ℚ × ℚ × List Eff :=
    match canSetIntention with
    | .CanBeSet =>
      ({ m.view with leftColor := .yellow, rightColor := .purple },
       m.lastThreshold, baseAlphaValue + 1/10, alphaVariance * 2,
       pulseMultiplier * 2, [])
    | .AlreadySet =>
      let v : ViewState := { m.view with leftColor := .green, rightColor := .blue }
      match interval with
      | .pom p =>
        match p.intention with
        | some i =>
          let t := runThresholds m.lastThreshold percentageElapsed thresholds i.description
          (v, t.1, baseAlphaValue, alphaVariance, pulseMultiplier, t.2)
        | none => (v, m.lastThreshold, baseAlphaValue, alphaVariance, pulseMultiplier, [])
      | .brk _ => (v, m.lastThreshold, baseAlphaValue, alphaVariance, pulseMultiplier, [])
    | .OnBreak =>
      ({ m.view with leftColor := .lightGray, rightColor := .darkGray },
       m.lastThreshold, baseAlphaValue, alphaVariance / 2, pulseMultiplier / 2, [])
    | .TooLate =>
      ({ m.view with leftColor := .orange, rightColor := .red },
       m.lastThreshold, baseAlphaValue, alphaVariance, pulseMultiplier, [])
    | .WasSet =>
      (m.view, m.lastThreshold, baseAlphaValue, alphaVariance, pulseMultiplier, [])
  let alphaValue := sinF (rawSec * r.2.2.2.2.1) * r.2.2.2.1 + r.2.2.1
  ({ view := { r.1 with percentage := percentageElapsed },
     window := { visible := true, alpha := alphaValue },
     lastThreshold := r.2.1,
     active := true },
   r.2.2.2.2.2)

/-- `MacPomObserver.dayOver`. -/
def macDayOver (m : MacState) : MacState × List Eff :=
  ({ m with active := false, window := { m.window with visible := false } },
   [.printE "The day is over. Goodbye."])

/-- The binding of the five observer callbacks of `MacPomObserver` to the
deep-embedded events. -/
def handleMac (sinF : ℚ → ℚ) (rawSec : ℚ) (m : MacState) :
    ObsEvent → MacState × List Eff
  | .breakStarting b => macBreakStarting m b
  | .pomodoroStarting day p => macPomodoroStarting m day p
  | .elapsedWithNoIntention p => macElapsedWithNoIntention m p
  | .progressUpdate interval pct resp => macProgressUpdate sinF rawSec m interval pct resp
  | .dayOver => macDayOver m

/-- Feed a list of observer events through `handleMac`, threading the
observer state and concatenating effect traces in order. -/
def dispatchEvents (sinF : ℚ → ℚ) (rawSec : ℚ) (m : MacState) :
    List ObsEvent → MacState × List Eff
  | [] => (m, [])
  | e :: rest =>
    let r1 := handleMac sinF rawSec m e
    let r2 := dispatchEvents sinF rawSec r1.1 rest
    (r2.1, r1.2 ++ r2.2)

/-- The driver-level `expressIntention(day, newIntention)` wrapper from
`mac_gui.py`: calls `Day.expressIntention`, posts one notification per
response value (the `AlreadySet` branch re-reads
`day.pendingIntervals[0].intention.description`, which would raise on an
inconsistent day — modelled as `Except.error`), then saves the day.  `now`
stands for the `datetime.now(tz=tzlocal())` sample. -/
def expressIntention (day : Day) (newIntention : String) (now : ℚ) :
    Except String (Day × List Eff) :=
  let r := day.expressIntention now newIntention
  let notifE : Except String Eff :=
    match r.1 with
    | .WasSet => .ok (.notif "Intention Set" ("“" ++ newIntention ++ "”") "")
    | .AlreadySet =>
      match r.2.pendingIntervals with
      | [] => .error "IndexError: list index out of range"
      | .brk _ :: _ => .error "AttributeError: Break object has no attribute intention"
      | .pom p :: _ =>
        match p.intention with
        | none => .error "AttributeError: NoneType object has no attribute description"
        | some i =>
          .ok (.notif "Intention Not Set" "Already Specified"
                ("intention was already: “" ++ i.description ++ "”"))
    | .TooLate =>
      .ok (.notif "Intention Not Set" "Too Late"
            "It's too late to set an intention. Try again next time!")
    | .OnBreak =>
      .ok (.notif "Intention Not Set" "You're On Break"
            "Set the intention when the pom begins.")
    | .CanBeSet =>
      .ok (.notif "Intention Confusion" "Internal Error" "received CanBeSet")
  match notifE with
  | .error e => .error e
  | .ok n =>
    .ok (r.2, [.printE "IR", n, .printE "saving day", .saveDayE r.2, .printE "saved"])

/-- `setIntention(day)` from `mac_gui.py`: runs the modal dialog (modelled
by the `Except`-valued `getStringR` collaborator) and the `expressIntention`
wrapper inside a `try`/`except BaseException` that only prints the
traceback. -/
def setIntention (getStringR : Except String String) (day : Day) (now : ℚ) :
    List Eff :=
  let body : Except String (List Eff) :=
    match getStringR with
    | .error e => .error e
    | .ok newIntention =>
      match expressIntention day newIntention now with
      | .error e => .error e
      | .ok r => .ok (.printE "String Get" :: r.2)
  match body with
  | .ok effs => effs
  | .error e => [.printE ("Traceback: " ++ e)]

/-- `thisAndPreviousPoms(day)` from `mac_gui.py`: the head pending interval
when it is a Pomodoro, then the elapsed Pomodoros newest-first. -/
def thisAndPreviousPoms (day : Day) : List Pomodoro :=
  (match day.pendingIntervals with
   | .pom p :: _ => [p]
   | _ => []) ++
  (if day.elapsedIntervals.isEmpty then []
   else day.elapsedIntervals.reverse.filterMap pomOf)

/-- The body of `DayManager.setSuccess` once the targeted Pomodoro is
found: notify-and-return when there is no intention or a verdict is
already set, otherwise call `Day.evaluateIntention` and notify.  A
contract-violation error from `evaluateIntention` would propagate as an
exception, reified as `Eff.raiseE`.  After a successful evaluation the
Python code re-reads the mutated `aPom.intention.wasSuccessful`, which
then holds `succeeded`. -/
def setSuccessBody (aPom : Pomodoro) (succeeded : Bool) : List Eff :=
  match aPom.intention with
  | none =>
    [.notif "Intention Not Set" "Automatic Failure" "Set an intention next time!"]
  | some intent =>
    match intent.wasSuccessful with
    | some ws =>
      let adjective := if ws then "successful" else "failed"
      [.notif "Success Previously Set" "" ("Pomodoro Already " ++ adjective ++ ".")]
    | none =>
      match aPom.evaluateIntention succeeded with
      | .error e => [.raiseE e]
      | .ok _ =>
        let adjective := if succeeded then "successful" else "failed"
        let noun := if succeeded then "Success" else "Failure"
        [.evaluated aPom succeeded,
         .notif ("Pomodoro " ++ noun) "" ("Marked Pomodoro " ++ adjective ++ ".")]

/-- The `for idx, aPom in enumerate(thisAndPreviousPoms(day))` loop of
`DayManager.setSuccess`: runs the body and returns at the element whose
position equals `-index`, scanning on past the others. -/
def setSuccessLoop (poms : List Pomodoro) (idx : ℤ) (succeeded : Bool)
    (index : ℤ) : List Eff :=
  match poms with
  | [] => []
  | aPom :: rest =>
    if idx = -index then setSuccessBody aPom succeeded
    else setSuccessLoop rest (idx + 1) succeeded index

/-- `DayManager.setSuccess(succeeded, index)` from `mac_gui.py`. -/
def setSuccess (day : Day) (succeeded : Bool) (index : ℤ) : List Eff :=
  setSuccessLoop (thisAndPreviousPoms day) 0 succeeded index

/-- The Pomodoro `setSuccess` targets: element number `-index` of
`thisAndPreviousPoms`, if any. -/
def targetPom (day : Day) (index : ℤ) : Option Pomodoro :=
  if 0 ≤ -index then (thisAndPreviousPoms day).get? (-index).toNat else none

/-- The state the driver's periodic `update` closure mutates: the current
day handle and the observer. -/
structure ManagerState where
  day : Day
  mac : MacState
deriving DecidableEq

/-- The tail of the periodic `update` closure after day rollover: advance
the (possibly replaced) day, dispatch the observer events, and set the
status-item title, whose GUI call is the `Except`-valued `statusR`
collaborator; a failure there is caught by `update`'s
`except BaseException` and only printed. -/
def updateAdvance (statusR : String → Except String Unit) (sinF : ℚ → ℚ)
    (rawSec : ℚ) (mac : MacState) (d : Day) (present : ℚ) :
    ManagerState × List Eff :=
  let r := d.advanceToTime present
  let dm := dispatchEvents sinF rawSec mac r.2
  let trace := Eff.advance d present :: dm.2
  match statusR (labelForDay r.1) with
  | .ok _ => (⟨r.1, dm.1⟩, trace ++ [.setTitle (labelForDay r.1)])
  | .error e => (⟨r.1, dm.1⟩, trace ++ [.printE ("Traceback: " ++ e)])

/-- The periodic `update` closure of `DayManager.start`: replace the day
handle when the calendar date of `present` differs from the day's
`startTime` date (the loader is the `Except`-valued `newDayR`
collaborator), then advance; every `BaseException` is caught and only a
traceback is printed. -/
def updateTick (newDayR : ℤ → Except String Day)
    (statusR : String → Except String Unit) (sinF : ℚ → ℚ) (rawSec : ℚ)
    (s : ManagerState) (present : ℚ) : ManagerState × List Eff :=
  if dateOf present ≠ dateOf s.day.startTime then
    match newDayR (dateOf present) with
    | .error e => (s, [.printE ("Traceback: " ++ e)])
    | .ok d => updateAdvance statusR sinF rawSec s.mac d present
  else updateAdvance statusR sinF rawSec s.mac s.day present

/-- A started `LoopingCall`: the repeat interval in seconds and the
scheduled function. -/
structure ScheduledLoop where
  interval : ℚ
  tick : ManagerState → ℚ → ManagerState × List Eff

/-- `DayManager.start` from `mac_gui.py`: builds the menu, then schedules
the `update` closure on a `LoopingCall` started with interval
`1.0 / 10.0`. -/
def dayManagerStart (newDayR : ℤ → Except String Day)
    (statusR : String → Except String Unit) (sinF : ℚ → ℚ) (rawSec : ℚ) :
    ScheduledLoop :=
  { interval := 1 / 10, tick := updateTick newDayR statusR sinF rawSec }

/-- The repeating loop: run one `update` tick per `(present, rawSec)`
sample, collecting each tick's effect trace. -/
def runLoop (newDayR : ℤ → Except String Day)
    (statusR : String → Except String Unit) (sinF : ℚ → ℚ)
    (s : ManagerState) : List (ℚ × ℚ) → ManagerState × List (List Eff)
  | [] => (s, [])
  | (present, rawSec) :: rest =>
    let r1 := updateTick newDayR statusR sinF rawSec s present
    let r2 := runLoop newDayR statusR sinF r1.1 rest
    (r2.1, r1.2 :: r2.2)

/-- A sequence of `progressUpdate` calls on the observer, threading its
state: used to state per-Pomodoro properties of the reminder
notifications. -/
def runProgressCalls (sinF : ℚ → ℚ) (m : MacState) :
    List (Interval × ℚ × IntentionResponse × ℚ) → MacState × List Eff
  | [] => (m, [])
  | (interval, pct, resp, rawSec) :: rest =>
    let r1 := macProgressUpdate sinF rawSec m interval pct resp
    let r2 := runProgressCalls sinF r1.1 rest
    (r2.1, r1.2 ++ r2.2)

/-- Count of "Remember Your Intention" notifications carrying a given
threshold message. -/
def reminderCount (msg : String) (effs : List Eff) : ℕ :=
  effs.countP (fun e =>
    match e with
    | .notif t sub _ => decide (t = "Remember Your Intention" ∧ sub = msg)
    | _ => false)

/-- Count of "Remember Your Intention" notifications with any message. -/
def reminderCountAny (effs : List Eff) : ℕ :=
  effs.countP (fun e =>
    match e with
    | .notif t _ _ => decide (t = "Remember Your Intention")
    | _ => false)


/-! ## Concrete instances used by witnesses -/

/-- A concrete observer state for witnesses: fresh view and window,
`lastThreshold = 0`. -/
def macState0 : MacState :=
  { view := ⟨0, Color.green, Color.red⟩, window := ⟨false, 0⟩,
    lastThreshold := 0, active := false }

/-- A concrete observer state for witnesses with `lastThreshold = 1/2`. -/
def macStateHalf : MacState :=
  { view := ⟨0, Color.green, Color.red⟩, window := ⟨false, 0⟩,
    lastThreshold := 1/2, active := false }

/-- A concrete Pomodoro with an unevaluated intention. -/
def pomWithIntent : Pomodoro := ⟨0, 1500, some ⟨"write spec", none⟩⟩

/-- A concrete view state at 50% for the C7 witness. -/
def viewHalf : ViewState := ⟨1/2, Color.green, Color.red⟩

/-- An empty concrete day starting at time 0 for witnesses. -/
def dayEmpty : Day := ⟨0, [], [], none, false⟩

/-- A concrete driver state for witnesses. -/
def manager0 : ManagerState := ⟨dayEmpty, macState0⟩

/-- A pending-plan day whose current Pomodoro has an unevaluated
intention. -/
def dayCur : Day := ⟨0, [Interval.pom pomWithIntent], [], none, false⟩

/-- A Pomodoro already judged successful. -/
def pomJudged : Pomodoro := ⟨0, 1500, some ⟨"done", some true⟩⟩

/-- A pending-plan day whose current Pomodoro is already judged. -/
def dayJudged : Day := ⟨0, [Interval.pom pomJudged], [], none, false⟩

/-- A day on break with one elapsed, already-judged Pomodoro. -/
def dayBreak : Day :=
  ⟨0, [Interval.brk ⟨1500, 1800⟩], [Interval.pom pomJudged], none, false⟩

/-- A loader collaborator that always succeeds with the empty day. -/
def okLoader : ℤ → Except String Day := fun _ => Except.ok dayEmpty

/-- A status-item collaborator that always succeeds. -/
def okStatus : String → Except String Unit := fun _ => Except.ok ()

/-- A trivial stand-in for the `math.sin` sample. -/
def zeroSin : ℚ → ℚ := fun _ => 0

/-! ## Helper lemmas -/

theorem runThresholds_self (ths : List (ℚ × String)) (p : ℚ) (desc : String) :
    runThresholds p p ths desc = (p, []) := by
  induction ths with
  | nil => rfl
  | cons head rest ih =>
    obtain ⟨pct, message⟩ := head
    rw [runThresholds, if_neg, ih]
    rintro ⟨h1, h2⟩
    exact absurd h2 (not_lt.2 h1)

theorem runThresholds_effs (last p : ℚ) (ths : List (ℚ × String)) (desc : String) :
    ∀ e ∈ (runThresholds last p ths desc).2,
      ∃ message info, e = Eff.notif "Remember Your Intention" message info := by
  induction ths generalizing last with
  | nil => intro e he; simp [runThresholds] at he
  | cons head rest ih =>
    obtain ⟨pct, message⟩ := head
    intro e he
    rw [runThresholds] at he
    split at he
    · rcases List.mem_cons.1 he with h | h
      · exact ⟨message, _, h⟩
      · exact ih p e h
    · exact ih last e he

theorem runThresholds_length_le_one (last p : ℚ) (ths : List (ℚ × String))
    (desc : String) : (runThresholds last p ths desc).2.length ≤ 1 := by
  induction ths generalizing last with
  | nil => simp [runThresholds]
  | cons head rest ih =>
    obtain ⟨pct, message⟩ := head
    rw [runThresholds]
    split
    · simp [runThresholds_self]
    · exact ih last

theorem runThresholds_last_mono (last p : ℚ) (ths : List (ℚ × String))
    (desc : String) : last ≤ (runThresholds last p ths desc).1 := by
  induction ths generalizing last with
  | nil => simp [runThresholds]
  | cons head rest ih =>
    obtain ⟨pct, message⟩ := head
    rw [runThresholds]
    split
    · rename_i h
      rw [runThresholds_self]
      exact le_of_lt (lt_of_le_of_lt h.1 h.2)
    · exact ih last

theorem runThresholds_fired_last (last p : ℚ) (ths : List (ℚ × String))
    (desc : String) (h : (runThresholds last p ths desc).2 ≠ []) :
    (runThresholds last p ths desc).1 = p := by
  induction ths generalizing last with
  | nil => simp [runThresholds] at h
  | cons head rest ih =>
    obtain ⟨pct, message⟩ := head
    rw [runThresholds] at h ⊢
    by_cases hc : last ≤ pct ∧ p > pct
    · rw [if_pos hc, runThresholds_self]
    · rw [if_neg hc] at h ⊢
      exact ih last h

theorem reminderCount_le_any (msg : String) (effs : List Eff) :
    reminderCount msg effs ≤ reminderCountAny effs := by
  refine List.countP_mono_left fun e _ h => ?_
  cases e <;> simp_all

theorem runThresholds_nofire (ths : List (ℚ × String)) (last p : ℚ)
    (desc msg : String) (h : ∀ q, (q, msg) ∈ ths → q < last) :
    reminderCount msg (runThresholds last p ths desc).2 = 0 := by
  induction ths generalizing last with
  | nil => simp [runThresholds, reminderCount]
  | cons head rest ih =>
    obtain ⟨pct, message⟩ := head
    rw [runThresholds]
    by_cases hc : last ≤ pct ∧ p > pct
    · rw [if_pos hc, runThresholds_self]
      have hne : message ≠ msg := by
        intro hmm
        subst hmm
        exact absurd (h pct (List.mem_cons_self _ _)) (not_lt.2 hc.1)
      simp [reminderCount, List.countP_cons, hne]
    · rw [if_neg hc]
      exact ih last fun q hq => h q (List.mem_cons_of_mem _ hq)

theorem runThresholds_fired (ths : List (ℚ × String)) (last p : ℚ)
    (desc msg : String)
    (h : 1 ≤ reminderCount msg (runThresholds last p ths desc).2) :
    ∃ q, (q, msg) ∈ ths ∧ q < (runThresholds last p ths desc).1 := by
  induction ths generalizing last with
  | nil => simp [runThresholds, reminderCount] at h
  | cons head rest ih =>
    obtain ⟨pct, message⟩ := head
    rw [runThresholds] at h ⊢
    by_cases hc : last ≤ pct ∧ p > pct
    · rw [if_pos hc, runThresholds_self] at h ⊢
      have hmm : message = msg := by
        by_contra hne
        simp [reminderCount, List.countP_cons, hne] at h
      exact ⟨pct, by simp [hmm], hc.2⟩
    · rw [if_neg hc] at h ⊢
      obtain ⟨q, hq, hlt⟩ := ih last h
      exact ⟨q, List.mem_cons_of_mem _ hq, hlt⟩

theorem macProgressUpdate_percentage (sinF : ℚ → ℚ) (rawSec : ℚ) (m : MacState)
    (interval : Interval) (p : ℚ) (resp : IntentionResponse) :
    (macProgressUpdate sinF rawSec m interval p resp).1.view.percentage = p := by
  cases resp <;> cases interval <;> rfl

theorem macProgressUpdate_lastThreshold_mono (sinF : ℚ → ℚ) (rawSec : ℚ)
    (m : MacState) (interval : Interval) (p : ℚ) (resp : IntentionResponse) :
    m.lastThreshold ≤ (macProgressUpdate sinF rawSec m interval p resp).1.lastThreshold := by
  cases resp <;> cases interval <;> (try exact le_refl _)
  rename_i q
  obtain ⟨qs, qe, qi⟩ := q
  cases qi
  · exact le_refl _
  · exact runThresholds_last_mono m.lastThreshold p thresholds _

theorem macProgressUpdate_reminders_le_one (sinF : ℚ → ℚ) (rawSec : ℚ)
    (m : MacState) (interval : Interval) (p : ℚ) (resp : IntentionResponse) :
    reminderCountAny (macProgressUpdate sinF rawSec m interval p resp).2 ≤ 1 := by
  cases resp <;> cases interval <;> (try exact Nat.zero_le _)
  rename_i q
  obtain ⟨qs, qe, qi⟩ := q
  cases qi
  · exact Nat.zero_le _
  · exact le_trans (List.countP_le_length _)
      (runThresholds_length_le_one m.lastThreshold p thresholds _)

theorem macProgressUpdate_nofire (sinF : ℚ → ℚ) (rawSec : ℚ) (m : MacState)
    (interval : Interval) (p : ℚ) (resp : IntentionResponse) (msg : String)
    (h : ∀ q, (q, msg) ∈ thresholds → q < m.lastThreshold) :
    reminderCount msg (macProgressUpdate sinF rawSec m interval p resp).2 = 0 := by
  cases resp <;> cases interval <;> (try rfl)
  rename_i q
  obtain ⟨qs, qe, qi⟩ := q
  cases qi
  · rfl
  · exact runThresholds_nofire thresholds m.lastThreshold p _ msg h

theorem macProgressUpdate_fired (sinF : ℚ → ℚ) (rawSec : ℚ) (m : MacState)
    (interval : Interval) (p : ℚ) (resp : IntentionResponse) (msg : String)
    (h : 1 ≤ reminderCount msg (macProgressUpdate sinF rawSec m interval p resp).2) :
    ∃ q, (q, msg) ∈ thresholds ∧
      q < (macProgressUpdate sinF rawSec m interval p resp).1.lastThreshold := by
  cases resp <;> cases interval
  case AlreadySet.pom q =>
    obtain ⟨qs, qe, qi⟩ := q
    cases qi
    · exact absurd h (by simp [macProgressUpdate, reminderCount])
    · exact runThresholds_fired thresholds m.lastThreshold p _ msg h
  all_goals exact absurd h (by simp [macProgressUpdate, reminderCount])

theorem macProgressUpdate_fired_sets_p (sinF : ℚ → ℚ) (rawSec : ℚ)
    (m : MacState) (interval : Interval) (p : ℚ) (resp : IntentionResponse)
    (h : 1 ≤ reminderCountAny (macProgressUpdate sinF rawSec m interval p resp).2) :
    (macProgressUpdate sinF rawSec m interval p resp).1.lastThreshold = p := by
  cases resp <;> cases interval
  case AlreadySet.pom q =>
    obtain ⟨qs, qe, qi⟩ := q
    cases qi
    · exact absurd h (by simp [macProgressUpdate, reminderCountAny])
    · rename_i i
      have hne : (runThresholds m.lastThreshold p thresholds i.description).2 ≠ [] := by
        intro hnil
        rw [show reminderCountAny (macProgressUpdate sinF rawSec m
              (Interval.pom ⟨qs, qe, some i⟩) p IntentionResponse.AlreadySet).2 =
            reminderCountAny (runThresholds m.lastThreshold p thresholds i.description).2
            from rfl, hnil] at h
        simp [reminderCountAny] at h
      exact runThresholds_fired_last m.lastThreshold p thresholds i.description hne
  all_goals exact absurd h (by simp [macProgressUpdate, reminderCountAny])

theorem runProgressCalls_mono (sinF : ℚ → ℚ) (m : MacState)
    (calls : List (Interval × ℚ × IntentionResponse × ℚ)) :
    m.lastThreshold ≤ (runProgressCalls sinF m calls).1.lastThreshold := by
  induction calls generalizing m with
  | nil => exact le_refl _
  | cons c rest ih =>
    obtain ⟨interval, pc, resp, rs⟩ := c
    exact le_trans (macProgressUpdate_lastThreshold_mono sinF rs m interval pc resp)
      (ih _)

theorem runProgressCalls_nofire (sinF : ℚ → ℚ) (m : MacState)
    (calls : List (Interval × ℚ × IntentionResponse × ℚ)) (msg : String)
    (h : ∀ q, (q, msg) ∈ thresholds → q < m.lastThreshold) :
    reminderCount msg (runProgressCalls sinF m calls).2 = 0 := by
  induction calls generalizing m with
  | nil => rfl
  | cons c rest ih =>
    obtain ⟨interval, pc, resp, rs⟩ := c
    have h1 := macProgressUpdate_nofire sinF rs m interval pc resp msg h
    have h2 : ∀ q, (q, msg) ∈ thresholds →
        q < (macProgressUpdate sinF rs m interval pc resp).1.lastThreshold :=
      fun q hq => lt_of_lt_of_le (h q hq)
        (macProgressUpdate_lastThreshold_mono sinF rs m interval pc resp)
    show ((macProgressUpdate sinF rs m interval pc resp).2 ++ _).countP _ = 0
    rw [List.countP_append]
    have h3 := ih _ h2
    unfold reminderCount at h1 h3
    omega

theorem thresholds_msg_unique (q q' : ℚ) (msg : String)
    (h : (q, msg) ∈ thresholds) (h' : (q', msg) ∈ thresholds) : q = q' := by
  simp only [thresholds, List.mem_cons, List.not_mem_nil, or_false,
    Prod.mk.injEq] at h h'
  rcases h with ⟨h1, h2⟩ | ⟨h1, h2⟩ | ⟨h1, h2⟩ | ⟨h1, h2⟩ <;>
    rcases h' with ⟨h3, h4⟩ | ⟨h3, h4⟩ | ⟨h3, h4⟩ | ⟨h3, h4⟩ <;>
      simp_all

theorem runProgressCalls_msg_le_one (sinF : ℚ → ℚ) (m : MacState)
    (calls : List (Interval × ℚ × IntentionResponse × ℚ)) (msg : String) :
    reminderCount msg (runProgressCalls sinF m calls).2 ≤ 1 := by
  induction calls generalizing m with
  | nil => simp [runProgressCalls, reminderCount]
  | cons c rest ih =>
    obtain ⟨interval, pc, resp, rs⟩ := c
    have happ : reminderCount msg (runProgressCalls sinF m
          ((interval, pc, resp, rs) :: rest)).2 =
        reminderCount msg (macProgressUpdate sinF rs m interval pc resp).2 +
        reminderCount msg (runProgressCalls sinF
          (macProgressUpdate sinF rs m interval pc resp).1 rest).2 := by
      unfold reminderCount
      exact List.countP_append _ _ _
    rw [happ]
    by_cases h0 : reminderCount msg (macProgressUpdate sinF rs m interval pc resp).2 = 0
    · rw [h0]
      simpa using ih _
    · have h1 : 1 ≤ reminderCount msg (macProgressUpdate sinF rs m interval pc resp).2 :=
        Nat.one_le_iff_ne_zero.2 h0
      obtain ⟨q, hq, hlt⟩ := macProgressUpdate_fired sinF rs m interval pc resp msg h1
      have hall : ∀ q', (q', msg) ∈ thresholds →
          q' < (macProgressUpdate sinF rs m interval pc resp).1.lastThreshold := by
        intro q' hq'
        rw [thresholds_msg_unique q' q msg hq' hq]
        exact hlt
      have hrest := runProgressCalls_nofire sinF _ rest msg hall
      have hfirst : reminderCount msg (macProgressUpdate sinF rs m interval pc resp).2 ≤ 1 :=
        le_trans (reminderCount_le_any msg _)
          (macProgressUpdate_reminders_le_one sinF rs m interval pc resp)
      omega

/-! ## Claim theorems -/

/-- C8: per Pomodoro, each reminder threshold triggers at most one
"Remember Your Intention" notification and each `progressUpdate` call posts
at most one; once a notification fires at `percentageElapsed = p`,
`lastThreshold` is set to `p`, so any threshold below the recorded
`lastThreshold` can never fire again across any further sequence of
`progressUpdate` calls, until `pomodoroStarting` resets `lastThreshold` to
`0.0` for the next Pomodoro. -/
theorem C8_reminders_at_most_once :
    (∀ sinF rawSec m interval p resp,
       reminderCountAny (macProgressUpdate sinF rawSec m interval p resp).2 ≤ 1) ∧
    (∀ sinF rawSec m interval p resp,
       1 ≤ reminderCountAny (macProgressUpdate sinF rawSec m interval p resp).2 →
       (macProgressUpdate sinF rawSec m interval p resp).1.lastThreshold = p) ∧
    (∀ sinF m calls msg,
       reminderCount msg (runProgressCalls sinF m calls).2 ≤ 1) ∧
    (∀ sinF m calls pct msg, (pct, msg) ∈ thresholds →
       pct < m.lastThreshold →
       reminderCount msg (runProgressCalls sinF m calls).2 = 0) ∧
    (∀ m day p, (macPomodoroStarting m day p).1.lastThreshold = 0) := by
  refine ⟨macProgressUpdate_reminders_le_one, macProgressUpdate_fired_sets_p,
    runProgressCalls_msg_le_one, ?_, fun m day p => rfl⟩
  intro sinF m calls pct msg hmem hlt
  refine runProgressCalls_nofire sinF m calls msg fun q hq => ?_
  rw [thresholds_msg_unique q pct msg hq hmem]
  exact hlt

theorem C8_witness :
    (1 ≤ reminderCountAny (macProgressUpdate (fun _ => 0) 0 macState0
          (Interval.pom pomWithIntent) (1/2) .AlreadySet).2 ∧
       (macProgressUpdate (fun _ => 0) 0 macState0
          (Interval.pom pomWithIntent) (1/2) .AlreadySet).1.lastThreshold = 1/2) ∧
    (((1:ℚ)/4, "Time to get started!") ∈ thresholds ∧
       (1:ℚ)/4 < macStateHalf.lastThreshold ∧
       reminderCount "Time to get started!"
         (runProgressCalls (fun _ => 0) macStateHalf []).2 = 0) := by
  have hfire : 1 ≤ reminderCountAny (macProgressUpdate (fun _ => 0) 0 macState0
      (Interval.pom pomWithIntent) (1/2) .AlreadySet).2 := by
    norm_num [macProgressUpdate, macState0, pomWithIntent, runThresholds,
      thresholds, reminderCountAny]
  have hmem : ((1:ℚ)/4, "Time to get started!") ∈ thresholds := by
    simp [thresholds]
  have hlt : (1:ℚ)/4 < macStateHalf.lastThreshold := by
    norm_num [macStateHalf]
  exact ⟨⟨hfire, C8_reminders_at_most_once.2.1 _ _ _ _ _ _ hfire⟩,
    ⟨hmem, hlt, C8_reminders_at_most_once.2.2.2.1 _ _ _ _ _ hmem hlt⟩⟩

/-- C7: every `progressUpdate` call stores exactly its `percentageElapsed`
into the progress view, and `drawRect_` splits the view's width `w` into a
left rectangle of width `percentage * w` and a right rectangle of width
`w - percentage * w`, both non-negative and summing to `w` whenever the
percentage lies in `[0, 1]` and the width is non-negative; a percentage
above 1 (resp. below 0) makes the right (resp. left) drawn width
negative. -/
theorem C7_percentage_stored_and_partition :
    (∀ sinF rawSec m interval p resp,
       (macProgressUpdate sinF rawSec m interval p resp).1.view.percentage = p) ∧
    (∀ (v : ViewState) (w h : ℚ), 0 ≤ v.percentage → v.percentage ≤ 1 → 0 ≤ w →
       (drawRect v w h).1.w = v.percentage * w ∧
       (drawRect v w h).2.w = w - v.percentage * w ∧
       0 ≤ (drawRect v w h).1.w ∧ 0 ≤ (drawRect v w h).2.w ∧
       (drawRect v w h).1.w + (drawRect v w h).2.w = w) ∧
    (∀ (v : ViewState) (w h : ℚ), 1 < v.percentage → 0 < w →
       (drawRect v w h).2.w < 0) ∧
    (∀ (v : ViewState) (w h : ℚ), v.percentage < 0 → 0 < w →
       (drawRect v w h).1.w < 0) := by
  refine ⟨macProgressUpdate_percentage, ?_, ?_, ?_⟩
  · intro v w h h0 h1 hw
    refine ⟨rfl, rfl, mul_nonneg h0 hw, ?_, ?_⟩
    · show 0 ≤ w - v.percentage * w
      nlinarith
    · show v.percentage * w + (w - v.percentage * w) = w
      ring
  · intro v w h h1 hw
    show w - v.percentage * w < 0
    nlinarith
  · intro v w h h0 hw
    show v.percentage * w < 0
    exact mul_neg_of_neg_of_pos h0 hw

theorem C7_witness :
    (0 ≤ viewHalf.percentage ∧ viewHalf.percentage ≤ 1 ∧ (0:ℚ) ≤ 100) ∧
    ((drawRect viewHalf 100 10).1.w = viewHalf.percentage * 100 ∧
     (drawRect viewHalf 100 10).2.w = 100 - viewHalf.percentage * 100 ∧
     0 ≤ (drawRect viewHalf 100 10).1.w ∧ 0 ≤ (drawRect viewHalf 100 10).2.w ∧
     (drawRect viewHalf 100 10).1.w + (drawRect viewHalf 100 10).2.w = 100) := by
  have h0 : 0 ≤ viewHalf.percentage := by norm_num [viewHalf]
  have h1 : viewHalf.percentage ≤ 1 := by norm_num [viewHalf]
  have hw : (0:ℚ) ≤ 100 := by norm_num
  exact ⟨⟨h0, h1, hw⟩,
    C7_percentage_stored_and_partition.2.1 viewHalf 100 10 h0 h1 hw⟩

/-- C4: `DayManager.start` schedules the periodic `update` function — the
one that calls `Day.advanceToTime(present, observer)` — on a repeating
`LoopingCall` whose interval is `1.0/10.0` seconds, i.e. ten calls per
second. -/
theorem C4_looping_call_interval :
    ∀ newDayR statusR sinF rawSec,
      (dayManagerStart newDayR statusR sinF rawSec).interval = 1 / 10 ∧
      (1 : ℚ) / (dayManagerStart newDayR statusR sinF rawSec).interval = 10 ∧
      (dayManagerStart newDayR statusR sinF rawSec).tick =
        updateTick newDayR statusR sinF rawSec ∧
      ∀ s present, dateOf present = dateOf s.day.startTime →
        Eff.advance s.day present ∈
          ((dayManagerStart newDayR statusR sinF rawSec).tick s present).2 := by
  intro newDayR statusR sinF rawSec
  refine ⟨rfl, by norm_num [dayManagerStart], rfl, ?_⟩
  intro s present hdate
  show Eff.advance s.day present ∈ (updateTick newDayR statusR sinF rawSec s present).2
  rw [updateTick, if_neg (not_not_intro hdate)]
  cases hst : statusR (labelForDay (s.day.advanceToTime present).1) <;>
    simp [updateAdvance, hst]

theorem C4_witness :
    dateOf 0 = dateOf manager0.day.startTime ∧
    Eff.advance manager0.day 0 ∈
      ((dayManagerStart (fun _ => Except.error "unused") (fun _ => Except.ok ())
        (fun _ => 0) 0).tick manager0 0).2 :=
  ⟨rfl, (C4_looping_call_interval (fun _ => Except.error "unused")
    (fun _ => Except.ok ()) (fun _ => 0) 0).2.2.2 manager0 0 rfl⟩

/-- Shape of the driver wrapper's result: always `ok`, with one
notification then one `saveDay`. -/
theorem expressIntention_shape :
    ∀ day newIntention now, ∃ d n, Eff.isNotif n = true ∧
      expressIntention day newIntention now =
        Except.ok (d, [Eff.printE "IR", n, Eff.printE "saving day",
          Eff.saveDayE d, Eff.printE "saved"]) ∧
      [Eff.printE "IR", n, Eff.printE "saving day", Eff.saveDayE d,
        Eff.printE "saved"].countP Eff.isNotif = 1 ∧
      [Eff.printE "IR", n, Eff.printE "saving day", Eff.saveDayE d,
        Eff.printE "saved"].countP Eff.isSaveDay = 1 := by
  intro day t now
  rcases hp : day.pendingIntervals with _ | ⟨p | b, rest⟩
  · refine ⟨day, Eff.notif "Intention Not Set" "Too Late"
        "It's too late to set an intention. Try again next time!",
        rfl, ?_, ?_, ?_⟩ <;>
      simp [expressIntention, Day.expressIntention, hp, List.countP_cons,
        Eff.isNotif, Eff.isSaveDay, List.countP_nil]
  · rcases hi : p.intention with _ | i
    · by_cases hlt : now < p.endTime
      · refine ⟨{ day with pendingIntervals := Interval.pom { p with intention := some ⟨t, none⟩ } :: rest },
            Eff.notif "Intention Set" ("“" ++ t ++ "”") "", rfl, ?_, ?_, ?_⟩ <;>
          simp [expressIntention, Day.expressIntention, hp, hi, hlt,
            List.countP_cons, Eff.isNotif, Eff.isSaveDay, List.countP_nil]
      · refine ⟨day, Eff.notif "Intention Not Set" "Too Late"
            "It's too late to set an intention. Try again next time!",
            rfl, ?_, ?_, ?_⟩ <;>
          simp [expressIntention, Day.expressIntention, hp, hi, hlt,
            List.countP_cons, Eff.isNotif, Eff.isSaveDay, List.countP_nil]
    · refine ⟨day, Eff.notif "Intention Not Set" "Already Specified"
          ("intention was already: “" ++ i.description ++ "”"), rfl, ?_, ?_, ?_⟩ <;>
        simp [expressIntention, Day.expressIntention, hp, hi,
          List.countP_cons, Eff.isNotif, Eff.isSaveDay, List.countP_nil]
  · refine ⟨day, Eff.notif "Intention Not Set" "You're On Break"
        "Set the intention when the pom begins.", rfl, ?_, ?_, ?_⟩ <;>
      simp [expressIntention, Day.expressIntention, hp, List.countP_cons,
        Eff.isNotif, Eff.isSaveDay, List.countP_nil]

/-- C2: for every response `Day.expressIntention` can return (`WasSet`,
`AlreadySet`, `TooLate`, `OnBreak`, or anything else), the driver wrapper
`expressIntention(day, newIntention)` succeeds (raises no exception),
issuing exactly one notification and then exactly one `saveDay` of the
(possibly updated) day — non-`WasSet` responses surface as informational
messages, never as failures. -/
theorem C2_express_wrapper_one_notify_one_save :
    ∀ day newIntention now, ∃ d n, Eff.isNotif n = true ∧
      expressIntention day newIntention now =
        Except.ok (d, [Eff.printE "IR", n, Eff.printE "saving day",
          Eff.saveDayE d, Eff.printE "saved"]) ∧
      [Eff.printE "IR", n, Eff.printE "saving day", Eff.saveDayE d,
        Eff.printE "saved"].countP Eff.isNotif = 1 ∧
      [Eff.printE "IR", n, Eff.printE "saving day", Eff.saveDayE d,
        Eff.printE "saved"].countP Eff.isSaveDay = 1 :=
  expressIntention_shape

theorem handleMac_no_advance (sinF : ℚ → ℚ) (rawSec : ℚ) (m : MacState)
    (e : ObsEvent) : (handleMac sinF rawSec m e).2.countP Eff.isAdvance = 0 := by
  cases e with
  | breakStarting b => rfl
  | pomodoroStarting day p => rfl
  | elapsedWithNoIntention p => rfl
  | dayOver => rfl
  | progressUpdate interval pct resp =>
    show (macProgressUpdate sinF rawSec m interval pct resp).2.countP Eff.isAdvance = 0
    cases resp <;> cases interval
    case AlreadySet.pom q =>
      obtain ⟨qs, qe, qi⟩ := q
      cases qi
      · rfl
      · rename_i i
        rw [List.countP_eq_zero]
        intro a ha
        obtain ⟨msg, info, heq⟩ :=
          runThresholds_effs m.lastThreshold pct thresholds i.description a ha
        subst heq
        simp [Eff.isAdvance]
    all_goals rfl

theorem dispatchEvents_no_advance (sinF : ℚ → ℚ) (rawSec : ℚ) (m : MacState)
    (evs : List ObsEvent) :
    (dispatchEvents sinF rawSec m evs).2.countP Eff.isAdvance = 0 := by
  induction evs generalizing m with
  | nil => rfl
  | cons e rest ih =>
    show ((handleMac sinF rawSec m e).2 ++ _).countP Eff.isAdvance = 0
    rw [List.countP_append, handleMac_no_advance, ih]

theorem expressIntention_ok_no_advance (day : Day) (text : String) (now : ℚ)
    (d2 : Day) (effs : List Eff)
    (h : expressIntention day text now = Except.ok (d2, effs)) :
    effs.countP Eff.isAdvance = 0 := by
  obtain ⟨d, n, hn, heq, -, -⟩ := expressIntention_shape day text now
  rw [heq] at h
  obtain ⟨h1, h2⟩ := Prod.mk.injEq .. ▸ Except.ok.inj h
  subst h2
  cases n <;> simp_all [List.countP_cons, Eff.isAdvance, Eff.isNotif]

/-- C5: no `MacPomObserver` callback — `breakStarting`, `pomodoroStarting`,
`elapsedWithNoIntention`, `progressUpdate`, `dayOver` — produces a call
into `Day.advanceToTime`, directly or through what it invokes (`notify`,
`askForIntent`, window and view updates); and the intention handler that
`askForIntent` registers (the driver `expressIntention` wrapper) never
does either, so the callbacks cannot re-enter the state machine. -/
theorem C5_callbacks_never_reenter_advance :
    (∀ sinF rawSec m e,
       (handleMac sinF rawSec m e).2.countP Eff.isAdvance = 0) ∧
    (∀ day text now d2 effs,
       expressIntention day text now = Except.ok (d2, effs) →
       effs.countP Eff.isAdvance = 0) :=
  ⟨handleMac_no_advance, expressIntention_ok_no_advance⟩

theorem C5_witness :
    expressIntention dayEmpty "x" 0 =
      Except.ok (dayEmpty, [Eff.printE "IR",
        Eff.notif "Intention Not Set" "Too Late"
          "It's too late to set an intention. Try again next time!",
        Eff.printE "saving day", Eff.saveDayE dayEmpty, Eff.printE "saved"]) ∧
    [Eff.printE "IR",
     Eff.notif "Intention Not Set" "Too Late"
       "It's too late to set an intention. Try again next time!",
     Eff.printE "saving day", Eff.saveDayE dayEmpty,
     Eff.printE "saved"].countP Eff.isAdvance = 0 :=
  ⟨rfl, C5_callbacks_never_reenter_advance.2 dayEmpty "x" 0 dayEmpty _ rfl⟩

theorem setSuccessLoop_char (poms : List Pomodoro) (idx index : ℤ)
    (succeeded : Bool) :
    setSuccessLoop poms idx succeeded index =
      if 0 ≤ -index - idx then
        match poms.get? (-index - idx).toNat with
        | some p => setSuccessBody p succeeded
        | none => []
      else [] := by
  induction poms generalizing idx with
  | nil =>
    rw [setSuccessLoop]
    split
    · rfl
    · rfl
  | cons aPom rest ih =>
    rw [setSuccessLoop]
    by_cases he : idx = -index
    · have h0 : -index - idx = 0 := by omega
      rw [if_pos he, h0]
      rfl
    · rw [if_neg he, ih]
      by_cases h0 : 0 ≤ -index - idx
      · have h1 : 0 ≤ -index - (idx + 1) := by omega
        rw [if_pos h0, if_pos h1]
        have h2 : (-index - idx).toNat = (-index - (idx + 1)).toNat + 1 := by omega
        rw [h2, List.get?_cons_succ]
      · have h1 : ¬ 0 ≤ -index - (idx + 1) := by omega
        rw [if_neg h0, if_neg h1]

theorem setSuccess_char (day : Day) (succeeded : Bool) (index : ℤ) :
    setSuccess day succeeded index =
      match targetPom day index with
      | some p => setSuccessBody p succeeded
      | none => [] := by
  rw [setSuccess, setSuccessLoop_char, targetPom]
  by_cases h0 : 0 ≤ -index
  · rw [if_pos (by omega : (0:ℤ) ≤ -index - 0), if_pos h0]
    have : -index - 0 = -index := by omega
    rw [this]
  · rw [if_neg (by omega : ¬ (0:ℤ) ≤ -index - 0), if_neg h0]

theorem setSuccessBody_no_raise (p : Pomodoro) (succeeded : Bool) :
    (setSuccessBody p succeeded).countP Eff.isRaise = 0 := by
  obtain ⟨ps, pe, pi⟩ := p
  rcases pi with _ | ⟨desc, ws⟩
  · rfl
  · rcases ws with _ | b <;> rfl

theorem setSuccessBody_evaluated_mem (p : Pomodoro) (succeeded : Bool)
    (q : Pomodoro) (b : Bool)
    (h : Eff.evaluated q b ∈ setSuccessBody p succeeded) :
    ∃ i, q.intention = some i ∧ i.wasSuccessful = none ∧
      ∃ q2, q.evaluateIntention b = Except.ok q2 := by
  obtain ⟨ps, pe, pi⟩ := p
  rcases pi with _ | ⟨desc, ws⟩
  · simp [setSuccessBody] at h
  · rcases ws with _ | v
    · simp [setSuccessBody, Pomodoro.evaluateIntention] at h
      obtain ⟨hq, hb⟩ := h
      subst hq
      subst hb
      exact ⟨⟨desc, none⟩, rfl, rfl, _, rfl⟩
    · simp [setSuccessBody] at h

theorem setSuccessBody_rejected (p : Pomodoro) (succeeded : Bool)
    (h : p.intention = none ∨ ∃ i v, p.intention = some i ∧ i.wasSuccessful = some v) :
    (setSuccessBody p succeeded).countP Eff.isNotif = 1 ∧
    (setSuccessBody p succeeded).countP Eff.isEvaluated = 0 := by
  obtain ⟨ps, pe, pi⟩ := p
  rcases pi with _ | ⟨desc, ws⟩
  · exact ⟨rfl, rfl⟩
  · rcases ws with _ | v
    · exfalso
      rcases h with h | ⟨i, v, hi, hv⟩
      · exact Option.noConfusion h
      · obtain rfl := Option.some.inj hi
        exact Option.noConfusion hv
    · exact ⟨rfl, rfl⟩

/-- C1: `DayManager.setSuccess(succeeded, index)` calls
`Day.evaluateIntention` only when the targeted Pomodoro has an intention
whose verdict is still unset; when the target has no intention or is
already judged it posts one notification and evaluates nothing, so the
contract-violation error branch of `evaluateIntention` (reified as
`Eff.raiseE`) is unreachable from this call site. -/
theorem C1_setSuccess_guards_evaluateIntention :
    ∀ day succeeded index,
      (setSuccess day succeeded index).countP Eff.isRaise = 0 ∧
      (∀ q b, Eff.evaluated q b ∈ setSuccess day succeeded index →
         ∃ i, q.intention = some i ∧ i.wasSuccessful = none ∧
           ∃ q2, q.evaluateIntention b = Except.ok q2) ∧
      (∀ p, targetPom day index = some p →
         p.intention = none ∨ (∃ i v, p.intention = some i ∧ i.wasSuccessful = some v) →
         (setSuccess day succeeded index).countP Eff.isNotif = 1 ∧
         (setSuccess day succeeded index).countP Eff.isEvaluated = 0) := by
  intro day succeeded index
  rw [setSuccess_char]
  cases ht : targetPom day index with
  | none => exact ⟨rfl, fun q b h => absurd h (List.not_mem_nil _), fun p hp => by
      exact absurd hp (by simp)⟩
  | some p =>
    refine ⟨setSuccessBody_no_raise p succeeded,
      fun q b h => setSuccessBody_evaluated_mem p succeeded q b h, ?_⟩
    intro p2 hp2 hbad
    obtain rfl := Option.some.inj hp2
    exact setSuccessBody_rejected _ succeeded hbad

theorem C1_witness :
    (Eff.evaluated pomWithIntent true ∈ setSuccess dayCur true 0 ∧
       ∃ i, pomWithIntent.intention = some i ∧ i.wasSuccessful = none ∧
         ∃ q2, pomWithIntent.evaluateIntention true = Except.ok q2) ∧
    (targetPom dayJudged 0 = some pomJudged ∧
       (pomJudged.intention = none ∨
         ∃ i v, pomJudged.intention = some i ∧ i.wasSuccessful = some v) ∧
       (setSuccess dayJudged true 0).countP Eff.isNotif = 1 ∧
       (setSuccess dayJudged true 0).countP Eff.isEvaluated = 0) := by
  have hmem : Eff.evaluated pomWithIntent true ∈ setSuccess dayCur true 0 := by
    have hs : setSuccess dayCur true 0 =
        Eff.evaluated pomWithIntent true ::
          [Eff.notif "Pomodoro Success" "" "Marked Pomodoro successful."] := rfl
    rw [hs]
    exact List.mem_cons_self _ _
  have htgt : targetPom dayJudged 0 = some pomJudged := rfl
  have hbad : pomJudged.intention = none ∨
      ∃ i v, pomJudged.intention = some i ∧ i.wasSuccessful = some v :=
    Or.inr ⟨⟨"done", some true⟩, true, rfl, rfl⟩
  exact ⟨⟨hmem, (C1_setSuccess_guards_evaluateIntention dayCur true 0).2.1
      pomWithIntent true hmem⟩,
    ⟨htgt, hbad, (C1_setSuccess_guards_evaluateIntention dayJudged true 0).2.2
      pomJudged htgt hbad⟩⟩

/-- C9: `thisAndPreviousPoms` yields the head pending interval only when it
is a Pomodoro, followed by the elapsed Pomodoros newest-first; hence
`setSuccess(succeeded, 0)` targets element 0 of that sequence — the current
pending Pomodoro when there is one, and otherwise the most recently elapsed
Pomodoro — and `setSuccess(succeeded, -1)` targets element 1. -/
theorem C9_thisAndPreviousPoms_targeting :
    (∀ day p rest, day.pendingIntervals = Interval.pom p :: rest →
       (thisAndPreviousPoms day).get? 0 = some p) ∧
    (∀ day, (day.pendingIntervals = [] ∨
        ∃ b rest, day.pendingIntervals = Interval.brk b :: rest) →
       (thisAndPreviousPoms day).get? 0 =
         (day.elapsedIntervals.filterMap pomOf).getLast?) ∧
    (∀ day succeeded,
       setSuccess day succeeded 0 =
         (match (thisAndPreviousPoms day).get? 0 with
          | some p => setSuccessBody p succeeded
          | none => []) ∧
       setSuccess day succeeded (-1) =
         (match (thisAndPreviousPoms day).get? 1 with
          | some p => setSuccessBody p succeeded
          | none => [])) := by
  refine ⟨?_, ?_, ?_⟩
  · intro day p rest hp
    simp [thisAndPreviousPoms, hp]
  · intro day hp
    have hpre : (match day.pendingIntervals with
        | Interval.pom p :: _ => [p]
        | _ => []) = ([] : List Pomodoro) := by
      rcases hp with hp | ⟨b, rest, hp⟩ <;> rw [hp]
    cases hel : day.elapsedIntervals with
    | nil => simp [thisAndPreviousPoms, hpre, hel]
    | cons e el =>
      rw [thisAndPreviousPoms, hpre, hel]
      simp only [List.isEmpty_cons, List.nil_append, if_false, Bool.false_eq_true]
      rw [List.get?_zero, List.filterMap_reverse, List.head?_reverse]
  · intro day succeeded
    have h0 : targetPom day 0 = (thisAndPreviousPoms day).get? 0 := by
      norm_num [targetPom]
    have h1 : targetPom day (-1) = (thisAndPreviousPoms day).get? 1 := by
      norm_num [targetPom]
    rw [setSuccess_char, setSuccess_char, h0, h1]
    exact ⟨rfl, rfl⟩

theorem C9_witness :
    (dayCur.pendingIntervals = Interval.pom pomWithIntent :: [] ∧
       (thisAndPreviousPoms dayCur).get? 0 = some pomWithIntent) ∧
    ((dayBreak.pendingIntervals = [] ∨
        ∃ b rest, dayBreak.pendingIntervals = Interval.brk b :: rest) ∧
       (thisAndPreviousPoms dayBreak).get? 0 =
         (dayBreak.elapsedIntervals.filterMap pomOf).getLast?) :=
  ⟨⟨rfl, C9_thisAndPreviousPoms_targeting.1 dayCur pomWithIntent [] rfl⟩,
   ⟨Or.inr ⟨⟨1500, 1800⟩, [], rfl⟩,
    C9_thisAndPreviousPoms_targeting.2.1 dayBreak (Or.inr ⟨⟨1500, 1800⟩, [], rfl⟩)⟩⟩

theorem updateAdvance_char (statusR : String → Except String Unit)
    (sinF : ℚ → ℚ) (rawSec : ℚ) (mac : MacState) (dd : Day) (present : ℚ) :
    (updateAdvance statusR sinF rawSec mac dd present).1 =
      ⟨(dd.advanceToTime present).1,
       (dispatchEvents sinF rawSec mac (dd.advanceToTime present).2).1⟩ ∧
    ∃ e, Eff.isAdvance e = false ∧
      (updateAdvance statusR sinF rawSec mac dd present).2 =
        Eff.advance dd present ::
          ((dispatchEvents sinF rawSec mac (dd.advanceToTime present).2).2 ++ [e]) := by
  rw [updateAdvance]
  cases hst : statusR (labelForDay (dd.advanceToTime present).1) with
  | ok u => exact ⟨rfl, ⟨Eff.setTitle (labelForDay (dd.advanceToTime present).1), rfl, rfl⟩⟩
  | error e => exact ⟨rfl, ⟨Eff.printE ("Traceback: " ++ e), rfl, rfl⟩⟩

theorem updateAdvance_advance_trace (statusR : String → Except String Unit)
    (sinF : ℚ → ℚ) (rawSec : ℚ) (mac : MacState) (dd : Day) (present : ℚ) :
    Eff.advance dd present ∈ (updateAdvance statusR sinF rawSec mac dd present).2 ∧
    (updateAdvance statusR sinF rawSec mac dd present).2.countP Eff.isAdvance = 1 := by
  obtain ⟨-, e, he, htr⟩ := updateAdvance_char statusR sinF rawSec mac dd present
  rw [htr]
  refine ⟨List.mem_cons_self _ _, ?_⟩
  rw [List.countP_cons, List.countP_append, dispatchEvents_no_advance,
    List.countP_cons, List.countP_nil, he]
  rfl

/-- C3: on every periodic tick, `update` replaces the day handle with a
freshly loaded day for the current date exactly when the calendar date of
`present` differs from the date of `self.day.startTime`; when the dates
agree the existing day handle is kept; in both cases `advanceToTime` is
then invoked exactly once, on the (possibly replaced) day, and the handle
retains that day afterwards. -/
theorem C3_day_rollover :
    ∀ newDayR statusR sinF rawSec s present d,
      newDayR (dateOf present) = Except.ok d →
      (dateOf present ≠ dateOf s.day.startTime →
        updateTick newDayR statusR sinF rawSec s present =
          updateAdvance statusR sinF rawSec s.mac d present ∧
        Eff.advance d present ∈ (updateTick newDayR statusR sinF rawSec s present).2) ∧
      (dateOf present = dateOf s.day.startTime →
        updateTick newDayR statusR sinF rawSec s present =
          updateAdvance statusR sinF rawSec s.mac s.day present ∧
        Eff.advance s.day present ∈ (updateTick newDayR statusR sinF rawSec s present).2) ∧
      (updateTick newDayR statusR sinF rawSec s present).2.countP Eff.isAdvance = 1 ∧
      (updateTick newDayR statusR sinF rawSec s present).1.day =
        ((if dateOf present ≠ dateOf s.day.startTime then d
          else s.day).advanceToTime present).1 := by
  intro newDayR statusR sinF rawSec s present d hnew
  by_cases hd : dateOf present ≠ dateOf s.day.startTime
  · have heq : updateTick newDayR statusR sinF rawSec s present =
        updateAdvance statusR sinF rawSec s.mac d present := by
      rw [updateTick, if_pos hd, hnew]
    refine ⟨fun _ => ⟨heq, ?_⟩, fun hcon => absurd hcon hd, ?_, ?_⟩
    · rw [heq]
      exact (updateAdvance_advance_trace statusR sinF rawSec s.mac d present).1
    · rw [heq]
      exact (updateAdvance_advance_trace statusR sinF rawSec s.mac d present).2
    · rw [heq, if_pos hd]
      exact congrArg ManagerState.day
        (updateAdvance_char statusR sinF rawSec s.mac d present).1
  · have heq : updateTick newDayR statusR sinF rawSec s present =
        updateAdvance statusR sinF rawSec s.mac s.day present := by
      rw [updateTick, if_neg hd]
    refine ⟨fun hcon => absurd hcon hd, fun _ => ⟨heq, ?_⟩, ?_, ?_⟩
    · rw [heq]
      exact (updateAdvance_advance_trace statusR sinF rawSec s.mac s.day present).1
    · rw [heq]
      exact (updateAdvance_advance_trace statusR sinF rawSec s.mac s.day present).2
    · rw [heq, if_neg hd]
      exact congrArg ManagerState.day
        (updateAdvance_char statusR sinF rawSec s.mac s.day present).1

theorem C3_witness :
    (okLoader (dateOf 0) = Except.ok dayEmpty ∧
       dateOf 0 = dateOf manager0.day.startTime) ∧
    (updateTick okLoader okStatus zeroSin 0 manager0 0 =
      updateAdvance okStatus zeroSin 0 manager0.mac manager0.day 0 ∧
     Eff.advance manager0.day 0 ∈
       (updateTick okLoader okStatus zeroSin 0 manager0 0).2) :=
  ⟨⟨rfl, rfl⟩,
   (C3_day_rollover okLoader okStatus zeroSin 0 manager0 0 dayEmpty rfl).2.1 rfl⟩

/-- C6: the Observer contract comprises exactly the five callback events
with the specified argument shapes — `breakStarting(break)`,
`pomodoroStarting(day, pomodoro)`, `elapsedWithNoIntention(pomodoro)`,
`progressUpdate(interval, percentageElapsed, intentionResponse)`,
`dayOver()` — `MacPomObserver` binds an implementation to each of the
five, and every `advanceToTime` call issued by the driver's periodic
`update` — on a same-date tick (advancing the retained day) and equally on
a day-rollover tick (advancing the freshly loaded day) — hands its events
to the manager's own `MacPomObserver` state. -/
theorem C6_observer_contract :
    (∀ e : ObsEvent, (∃ b, e = ObsEvent.breakStarting b) ∨
       (∃ day p, e = ObsEvent.pomodoroStarting day p) ∨
       (∃ p, e = ObsEvent.elapsedWithNoIntention p) ∨
       (∃ i pc r, e = ObsEvent.progressUpdate i pc r) ∨
       e = ObsEvent.dayOver) ∧
    (∀ sinF rawSec m,
       (∀ b, handleMac sinF rawSec m (ObsEvent.breakStarting b) =
         macBreakStarting m b) ∧
       (∀ day p, handleMac sinF rawSec m (ObsEvent.pomodoroStarting day p) =
         macPomodoroStarting m day p) ∧
       (∀ p, handleMac sinF rawSec m (ObsEvent.elapsedWithNoIntention p) =
         macElapsedWithNoIntention m p) ∧
       (∀ i pc r, handleMac sinF rawSec m (ObsEvent.progressUpdate i pc r) =
         macProgressUpdate sinF rawSec m i pc r) ∧
       handleMac sinF rawSec m ObsEvent.dayOver = macDayOver m) ∧
    (∀ newDayR statusR sinF rawSec s present,
       dateOf present = dateOf s.day.startTime →
       (updateTick newDayR statusR sinF rawSec s present).1.mac =
         (dispatchEvents sinF rawSec s.mac (s.day.advanceToTime present).2).1) ∧
    (∀ newDayR statusR sinF rawSec s present d,
       newDayR (dateOf present) = Except.ok d →
       dateOf present ≠ dateOf s.day.startTime →
       (updateTick newDayR statusR sinF rawSec s present).1.mac =
         (dispatchEvents sinF rawSec s.mac (d.advanceToTime present).2).1) := by
  refine ⟨?_, ?_, ?_, ?_⟩
  · intro e
    cases e with
    | breakStarting b => exact Or.inl ⟨b, rfl⟩
    | pomodoroStarting day p => exact Or.inr (Or.inl ⟨day, p, rfl⟩)
    | elapsedWithNoIntention p => exact Or.inr (Or.inr (Or.inl ⟨p, rfl⟩))
    | progressUpdate i pc r =>
      exact Or.inr (Or.inr (Or.inr (Or.inl ⟨i, pc, r, rfl⟩)))
    | dayOver => exact Or.inr (Or.inr (Or.inr (Or.inr rfl)))
  · intro sinF rawSec m
    exact ⟨fun b => rfl, fun day p => rfl, fun p => rfl, fun i pc r => rfl, rfl⟩
  · intro newDayR statusR sinF rawSec s present hdate
    rw [updateTick, if_neg (not_not_intro hdate)]
    exact congrArg ManagerState.mac
      (updateAdvance_char statusR sinF rawSec s.mac s.day present).1
  · intro newDayR statusR sinF rawSec s present d hnew hdate
    rw [updateTick, if_pos hdate, hnew]
    exact congrArg ManagerState.mac
      (updateAdvance_char statusR sinF rawSec s.mac d present).1

theorem C6_witness :
    (dateOf 0 = dateOf manager0.day.startTime ∧
       (updateTick okLoader okStatus zeroSin 0 manager0 0).1.mac =
         (dispatchEvents zeroSin 0 manager0.mac
           (manager0.day.advanceToTime 0).2).1) ∧
    (okLoader (dateOf 86400) = Except.ok dayEmpty ∧
       dateOf 86400 ≠ dateOf manager0.day.startTime ∧
       (updateTick okLoader okStatus zeroSin 0 manager0 86400).1.mac =
         (dispatchEvents zeroSin 0 manager0.mac
           (dayEmpty.advanceToTime 86400).2).1) := by
  have hd : dateOf 86400 ≠ dateOf manager0.day.startTime := by
    show dateOf 86400 ≠ dateOf dayEmpty.startTime
    norm_num [dateOf, dayEmpty]
  exact ⟨⟨rfl, C6_observer_contract.2.2.1 okLoader okStatus zeroSin 0 manager0 0 rfl⟩,
    ⟨rfl, hd, C6_observer_contract.2.2.2 okLoader okStatus zeroSin 0 manager0 86400
      dayEmpty rfl hd⟩⟩

/-- C10: every exception in the periodic `update` tick — from the day
loader at rollover or from the status-label update — is caught and only a
traceback is printed: a failing loader leaves the driver state unchanged,
a failing status update keeps the advanced day and observer state; the
repeating loop runs one trace per tick no matter what the collaborators
return; and `setIntention` likewise catches a failing dialog, printing only
a traceback, and never propagates an exception. -/
theorem C10_exceptions_caught_loop_continues :
    (∀ newDayR statusR sinF rawSec s present e,
       dateOf present ≠ dateOf s.day.startTime →
       newDayR (dateOf present) = Except.error e →
       updateTick newDayR statusR sinF rawSec s present =
         (s, [Eff.printE ("Traceback: " ++ e)])) ∧
    (∀ statusR sinF rawSec mac d present e,
       statusR (labelForDay (d.advanceToTime present).1) = Except.error e →
       updateAdvance statusR sinF rawSec mac d present =
         (⟨(d.advanceToTime present).1,
           (dispatchEvents sinF rawSec mac (d.advanceToTime present).2).1⟩,
          Eff.advance d present ::
            ((dispatchEvents sinF rawSec mac (d.advanceToTime present).2).2 ++
             [Eff.printE ("Traceback: " ++ e)]))) ∧
    (∀ newDayR statusR sinF s ticks,
       ((runLoop newDayR statusR sinF s ticks).2).length = ticks.length) ∧
    (∀ day now e, setIntention (Except.error e) day now =
       [Eff.printE ("Traceback: " ++ e)]) ∧
    (∀ gs day now, (setIntention gs day now).countP Eff.isRaise = 0) := by
  refine ⟨?_, ?_, ?_, ?_, ?_⟩
  · intro newDayR statusR sinF rawSec s present e hd herr
    rw [updateTick, if_pos hd, herr]
  · intro statusR sinF rawSec mac d present e herr
    rw [updateAdvance, herr]
    rfl
  · intro newDayR statusR sinF s ticks
    induction ticks generalizing s with
    | nil => rfl
    | cons t rest ih =>
      obtain ⟨present, rawSec⟩ := t
      show ((runLoop newDayR statusR sinF _ rest).2).length + 1 = rest.length + 1
      rw [ih]
  · intro day now e
    rfl
  · intro gs day now
    cases gs with
    | error e => rfl
    | ok text =>
      obtain ⟨d, n, hn, heq, -, -⟩ := expressIntention_shape day text now
      rw [setIntention, heq]
      cases n <;> simp_all [List.countP_cons, Eff.isRaise, Eff.isNotif]

theorem C10_witness :
    (dateOf 86400 ≠ dateOf manager0.day.startTime ∧
       (fun _ : ℤ => (Except.error "load failed" : Except String Day))
         (dateOf 86400) = Except.error "load failed" ∧
       updateTick (fun _ => Except.error "load failed") okStatus zeroSin 0
         manager0 86400 =
         (manager0, [Eff.printE ("Traceback: " ++ "load failed")])) ∧
    ((fun _ : String => (Except.error "gui gone" : Except String Unit))
        (labelForDay (dayEmpty.advanceToTime 0).1) = Except.error "gui gone" ∧
       updateAdvance (fun _ => Except.error "gui gone") zeroSin 0 macState0
         dayEmpty 0 =
         (⟨(dayEmpty.advanceToTime 0).1,
           (dispatchEvents zeroSin 0 macState0 (dayEmpty.advanceToTime 0).2).1⟩,
          Eff.advance dayEmpty 0 ::
            ((dispatchEvents zeroSin 0 macState0 (dayEmpty.advanceToTime 0).2).2 ++
             [Eff.printE ("Traceback: " ++ "gui gone")]))) := by
  have hd : dateOf 86400 ≠ dateOf manager0.day.startTime := by
    show dateOf 86400 ≠ dateOf dayEmpty.startTime
    norm_num [dateOf, dayEmpty]
  exact ⟨⟨hd, rfl, C10_exceptions_caught_loop_continues.1
      (fun _ => Except.error "load failed") okStatus zeroSin 0 manager0 86400
      "load failed" hd rfl⟩,
    ⟨rfl, C10_exceptions_caught_loop_continues.2.1
      (fun _ => Except.error "gui gone") zeroSin 0 macState0 dayEmpty 0
      "gui gone" rfl⟩⟩

end Pomodouroboros
